import Mathlib

/- Verification of the patch-apply / conflict-resolution scripts
   (apply_patch.py, apply_patch_and_push_fix.py, apply_patch_and_push.py).

   A file is modelled as its list of lines, exactly as Python's
   f.readlines() produces it (each line keeps its trailing newline);
   a line is a Lean String.  Pure text transformations are translated
   directly; the effectful parts (subprocess calls, file writes,
   backup copies, the log file) are modelled as an explicit trace of
   events, and the environment (exit status and captured stdout of each
   external command, the set of files on disk) is passed in as data. -/

namespace PatchSpec

/- ===== conflict-marker predicates =====
   Python str.startswith(p) is: p is a prefix of the character sequence. -/

/-- Python s.startswith(p), as prefix test on the character sequences. -/
def startsWithStr (p s : String) : Bool := p.data.isPrefixOf s.data

/-- Python p in s (substring test), as infix test on character sequences. -/
def containsSeq (p : List Char) : List Char → Bool
  | [] => p.isEmpty
  | c :: cs => p.isPrefixOf (c :: cs) || containsSeq p cs

/-- line.startswith("<<<<<<<"): conflict start-marker line
    (apply_patch.py lines 58 and 71, apply_patch_and_push_fix.py line 66). -/
def isStart (l : String) : Bool := startsWithStr "<<<<<<<" l

/-- line.startswith("======="): conflict separator line
    (apply_patch.py line 73, apply_patch_and_push_fix.py line 70). -/
def isSep (l : String) : Bool := startsWithStr "=======" l

/-- line.startswith(">>>>>>>"): conflict end-marker line
    (apply_patch.py lines 76 and 79, apply_patch_and_push_fix.py line 73). -/
def isEnd (l : String) : Bool := startsWithStr ">>>>>>>" l

/-- a line that is none of the three conflict-marker lines. -/
def noMarker (l : String) : Bool := !isStart l && !isSep l && !isEnd l

/- ===== resolve_conflicts (apply_patch.py lines 63-87) =====
   The Python is an index loop over lines:
     while i < len(lines):
       if lines[i].startswith("<<<<<<<"):
         i += 1
         while i < len(lines) and not lines[i].startswith("======="): i += 1
         i += 1                                   # skip the separator
         while i < len(lines) and not lines[i].startswith(">>>>>>>"):
           resolved.append(lines[i]); i += 1
         while i < len(lines) and not lines[i].startswith(">>>>>>>"): i += 1
         i += 1                                   # skip the end marker
       else:
         resolved.append(lines[i]); i += 1
   The three inner scans are dropWhile / takeWhile / dropWhile over the
   remaining suffix (the second ">>>>>>>" scan starts where the first
   stopped, hence the repeated dropWhile), and each unconditional
   "i += 1" is a drop 1.  The function afterwards rewrites the file with
   the returned lines unconditionally (lines 86-87: open(path, "w");
   writelines(resolved)) - there is no unresolved outcome. -/

/-- the line transformation performed by resolve_conflicts in
    apply_patch.py; the Python rewrites the file with this output
    unconditionally. -/
def resolve_conflicts : List String → List String
  | [] => []
  | l :: ls =>
    if isStart l then
      ((ls.dropWhile fun x => !isSep x).drop 1).takeWhile (fun x => !isEnd x) ++
        resolve_conflicts
          (((((ls.dropWhile fun x => !isSep x).drop 1).dropWhile fun x => !isEnd x).dropWhile
              fun x => !isEnd x).drop 1)
    else
      l :: resolve_conflicts ls
termination_by ls => ls.length
decreasing_by
  · simp only [List.length_cons]
    have h1 : ((ls.dropWhile fun x => !isSep x)).length ≤ ls.length :=
      (List.dropWhile_sublist _).length_le
    have h2 : (((ls.dropWhile fun x => !isSep x).drop 1).dropWhile fun x => !isEnd x).length ≤
        ((ls.dropWhile fun x => !isSep x).drop 1).length :=
      (List.dropWhile_sublist _).length_le
    have h3 : ((((ls.dropWhile fun x => !isSep x).drop 1).dropWhile fun x => !isEnd x).dropWhile
        fun x => !isEnd x).length ≤
        (((ls.dropWhile fun x => !isSep x).drop 1).dropWhile fun x => !isEnd x).length :=
      (List.dropWhile_sublist _).length_le
    simp only [List.length_drop] at *
    omega
  · simp only [List.length_cons]
    omega

/- The spec (section 4.3) presents the same algorithm as a three-state
   machine (Normal / InOurs / InTheirs).  The state machine below is a
   structurally recursive rendering; the theorem resolve_conflicts_eq_go
   further down proves it extensionally equal to the loop translation,
   which both validates the spec's state-machine presentation and gives
   a kernel-computable form for concrete evaluation. -/

inductive AState
  | normal
  | skipOurs
  | takeTheirs
deriving DecidableEq

/-- three-state rendering of the resolve_conflicts scan. -/
def resolveA_go : AState → List String → List String
  | _, [] => []
  | AState.normal, l :: ls =>
    if isStart l then resolveA_go AState.skipOurs ls else l :: resolveA_go AState.normal ls
  | AState.skipOurs, l :: ls =>
    if isSep l then resolveA_go AState.takeTheirs ls else resolveA_go AState.skipOurs ls
  | AState.takeTheirs, l :: ls =>
    if isEnd l then resolveA_go AState.normal ls else l :: resolveA_go AState.takeTheirs ls

/- ===== the line pass inside backup_and_resolve
         (apply_patch_and_push_fix.py lines 61-77) =====
   for line in lines:
     if line.startswith("<<<<<<<"):   in_conflict = True; keep_new = False; continue
     elif line.startswith("=======") and in_conflict: keep_new = True; continue
     elif line.startswith(">>>>>>>") and in_conflict: in_conflict = False; continue
     elif not in_conflict or keep_new: new_lines.append(line)  -/

/-- the per-line state machine of backup_and_resolve; arguments are the
    two Python flags in_conflict and keep_new. -/
def br_go : Bool → Bool → List String → List String
  | _, _, [] => []
  | in_conflict, keep_new, line :: ls =>
    if isStart line then br_go true false ls
    else if isSep line && in_conflict then br_go in_conflict true ls
    else if isEnd line && in_conflict then br_go false keep_new ls
    else if !in_conflict || keep_new then line :: br_go in_conflict keep_new ls
    else br_go in_conflict keep_new ls

/-- the line transformation of backup_and_resolve: both flags start False;
    the Python writes the output back to the file unless dry_run. -/
def backup_resolve_lines (lines : List String) : List String := br_go false false lines

/- ===== effect traces =====
   External effects are recorded as events: an executed git command with
   its argument list, a shutil.copy backup, a file rewrite, and the
   write_log_file call (open(log_path, "w") at the end of main in
   apply_patch_and_push_fix.py). -/

inductive Event
  | git (args : List String)
  | copy (src dst : String)
  | fwrite (path : String)
  | logWrite
deriving DecidableEq

/-- a file of the working copy: relative path, its lines, whether it is
    present on disk, and whether processing it raises an exception (the
    except-branch of backup_and_resolve, modelling an I/O error). -/
structure MFile where
  path : String
  content : List String
  onDisk : Bool
  raises : Bool
deriving DecidableEq

/-- has_conflicts per-file test (apply_patch_and_push_fix.py lines 32-46):
    name ends with .rej or .orig, or the file text contains the substring
    "<<<<<<<" anywhere (not only at line starts). -/
def fileConflicted (f : MFile) : Bool :=
  ".rej".data.isSuffixOf f.path.data || ".orig".data.isSuffixOf f.path.data ||
    f.content.any fun l => containsSeq "<<<<<<<".data l.data

/-- has_conflicts (apply_patch_and_push_fix.py lines 32-46): os.walk sees
    exactly the files present on disk. -/
def has_conflicts (repo : List MFile) : List MFile :=
  repo.filter fun f => f.onDisk && fileConflicted f

/-- has_conflict_markers (apply_patch.py lines 54-60): some line starts
    with "<<<<<<<". -/
def has_conflict_markers (f : MFile) : Bool := f.content.any fun l => isStart l

/-- run_cmd (apply_patch_and_push_fix.py lines 18-30): when dry_run it
    executes nothing and returns (True, ""); otherwise it runs the
    command and returns its success flag (captured output elided). -/
def runCmd (dry : Bool) (args : List String) (ok : Bool) : List Event × Bool :=
  if dry then ([], true) else ([Event.git args], ok)

/-- outcome of backup_and_resolve: its events, the list `resolved` of
    relative paths it reports, and the scanned files' state afterwards. -/
structure ResolveOut where
  events : List Event
  resolvedNames : List String
  files : List MFile
deriving DecidableEq

/-- backup_and_resolve (apply_patch_and_push_fix.py lines 48-87).  Per
    file: a missing file is skipped; an exception leaves the file as it
    was and does not add it to `resolved`; otherwise the original is
    copied to path + ".bak" and the file is rewritten with the resolved
    lines (both skipped under dry_run, though `resolved` still records
    the file).  Path(p).with_suffix(p.suffix + ".bak") appends ".bak". -/
def backup_and_resolve (dry : Bool) : List MFile → ResolveOut
  | [] => ⟨[], [], []⟩
  | f :: fs =>
    match backup_and_resolve dry fs with
    | ⟨evs, res, outs⟩ =>
      if f.onDisk = false then ⟨evs, res, outs⟩
      else if f.raises then ⟨evs, res, f :: outs⟩
      else
        ⟨(if dry then [] else [Event.copy f.path (f.path ++ ".bak"), Event.fwrite f.path]) ++ evs,
          f.path :: res,
          ⟨f.path, if dry then f.content else backup_resolve_lines f.content,
            f.onDisk, f.raises⟩ :: outs⟩

/-- auto_commit_and_push (apply_patch_and_push_fix.py lines 104-122):
    stage all, un-stage the excluded artifacts, commit, and push iff the
    push flag is set.  Every run_cmd result is discarded by the Python,
    so the commands' success flags do not influence control flow. -/
def auto_commit_and_push (dry push : Bool) (msg : String) : List Event :=
  (runCmd dry ["git", "add", "--all"] true).1 ++
    (runCmd dry ["git", "reset", "code.patch", "apply_patch_and_push_fix.py",
        "patch_apply.log"] true).1 ++
    (runCmd dry ["git", "commit", "-m", msg] true).1 ++
    (if push then (runCmd dry ["git", "push"] true).1 else [])

/-- environment of one apply_patch_and_push_fix.py run: validation facts,
    the exit status each external command would have, the flags, and the
    working copy. -/
structure FixEnv where
  patchIsFile : Bool
  gitExists : Bool
  applyOk : Bool
  resetOk : Bool
  cleanOk : Bool
  retryOk : Bool
  autoPush : Bool
  dryRun : Bool
  patchPath : String
  repo : List MFile
deriving DecidableEq

/-- apply_patch (apply_patch_and_push_fix.py lines 89-96): one run_cmd of
    git apply --3way; its success flag is the result. -/
def fixApplyPatch (e : FixEnv) : List Event × Bool :=
  runCmd e.dryRun ["git", "apply", "--3way", e.patchPath] e.applyOk

/-- fallback_attempt (apply_patch_and_push_fix.py lines 98-102): hard
    reset, clean, then retry the 3-way apply; result is the retry's. -/
def fallback_attempt (e : FixEnv) : List Event × Bool :=
  ((runCmd e.dryRun ["git", "reset", "--hard"] e.resetOk).1 ++
      (runCmd e.dryRun ["git", "clean", "-fd"] e.cleanOk).1 ++
      (runCmd e.dryRun ["git", "apply", "--3way", e.patchPath] e.retryOk).1,
    (runCmd e.dryRun ["git", "apply", "--3way", e.patchPath] e.retryOk).2)

/-- main (apply_patch_and_push_fix.py lines 124-176) as its event trace.
    Validation failure returns before anything runs (so also before
    write_log_file).  Otherwise: apply, fallback on failure, scan, then
    either resolve-and-commit (commit only when `resolved` is nonempty)
    or commit directly on clean success; write_log_file runs at the end
    of every non-validation-failure path, dry run included. -/
def fixMainEvents (e : FixEnv) : List Event :=
  if e.patchIsFile = false then []
  else if e.gitExists = false then []
  else
    (fixApplyPatch e).1 ++
      (if (fixApplyPatch e).2 then [] else (fallback_attempt e).1) ++
      (if (has_conflicts e.repo).isEmpty then
        (if (if (fixApplyPatch e).2 then true else (fallback_attempt e).2) then
          auto_commit_and_push e.dryRun e.autoPush "Applied patch cleanly"
        else [])
      else
        (backup_and_resolve e.dryRun (has_conflicts e.repo)).events ++
          (if (backup_and_resolve e.dryRun (has_conflicts e.repo)).resolvedNames.isEmpty then []
          else auto_commit_and_push e.dryRun e.autoPush "Applied patch with auto-resolve")) ++
      [Event.logWrite]

/-- the fix script's main never calls sys.exit: every path ends in a
    plain return, so the process exit status is 0 on every input. -/
def fixMain (e : FixEnv) : List Event × Nat := (fixMainEvents e, 0)

/- ===== apply_patch.py pipeline ===== -/

/-- the captured result of an external command: its exit status and its
    stdout (run() in apply_patch.py returns result.stdout.strip() only). -/
structure CmdResult where
  exitCode : Nat
  stdout : String
deriving DecidableEq

/-- run(cmd, ignore_error=True) in apply_patch.py (lines 17-31): the exit
    status is discarded and only the stdout text is returned. -/
def runIgnore (r : CmdResult) : String := r.stdout

/-- the "nothing to commit" classification (apply_patch.py line 116):
    substring test on the lowercased commit stdout. -/
def nothingToCommit (out : String) : Bool :=
  containsSeq "nothing to commit".data (out.data.map Char.toLower)

/-- commit_and_push (apply_patch.py lines 107-122): git add . (exits 1 on
    failure), git commit with ignore_error=True, then: if the stdout
    matches the nothing-to-commit signature, return (exit 0, no push);
    otherwise always push - also after a failed commit - and exit 1 only
    if the push itself fails. -/
def commit_and_push (addOk : Bool) (commitRes : CmdResult) (pushOk : Bool) :
    List Event × Nat :=
  if addOk = false then ([Event.git ["git", "add", "."]], 1)
  else if nothingToCommit (runIgnore commitRes) then
    ([Event.git ["git", "add", "."], Event.git ["git", "commit", "-m", "Auto-patch"]], 0)
  else if pushOk then
    ([Event.git ["git", "add", "."], Event.git ["git", "commit", "-m", "Auto-patch"],
      Event.git ["git", "push"]], 0)
  else
    ([Event.git ["git", "add", "."], Event.git ["git", "commit", "-m", "Auto-patch"],
      Event.git ["git", "push"]], 1)

/-- environment of one apply_patch.py run. -/
structure ApEnv where
  patchIsFile : Bool
  repoIsDir : Bool
  gitDirIsDir : Bool
  threeWayOk : Bool
  rejectOk : Bool
  addOk : Bool
  touched : List MFile
  commitRes : CmdResult
  pushOk : Bool
  patchPath : String
deriving DecidableEq

/-- the per-file loop of apply_patch (apply_patch.py lines 99-104): each
    patch-touched file that exists and has a start-marker line is
    rewritten by resolve_conflicts and staged; a failing git add exits 1
    there (run without ignore_error). -/
def apResolveLoop (addOk : Bool) : List MFile → List Event × Option Nat
  | [] => ([], none)
  | f :: fs =>
    if f.onDisk && has_conflict_markers f then
      if addOk then
        (Event.fwrite f.path :: Event.git ["git", "add", f.path] ::
            (apResolveLoop addOk fs).1,
          (apResolveLoop addOk fs).2)
      else ([Event.fwrite f.path, Event.git ["git", "add", f.path]], some 1)
    else apResolveLoop addOk fs

/-- resolve loop followed by commit_and_push (apply_patch.py main after a
    successful apply). -/
def apAfterApply (e : ApEnv) (evs : List Event) : List Event × Nat :=
  match apResolveLoop e.addOk e.touched with
  | (levs, some c) => (evs ++ levs, c)
  | (levs, none) =>
    ((evs ++ levs) ++ (commit_and_push e.addOk e.commitRes e.pushOk).1,
      (commit_and_push e.addOk e.commitRes e.pushOk).2)

/-- main of apply_patch.py (lines 125-136): validate_paths exits 1 on a
    missing patch file, missing repo dir, or missing .git dir; apply_patch
    tries git apply --3way, falls back to git apply --reject only when the
    3-way apply failed, and exits 1 when both fail; then the resolve loop
    and commit_and_push decide the final status. -/
def apMain (e : ApEnv) : List Event × Nat :=
  if e.patchIsFile = false then ([], 1)
  else if e.repoIsDir = false then ([], 1)
  else if e.gitDirIsDir = false then ([], 1)
  else if e.threeWayOk then
    apAfterApply e [Event.git ["git", "apply", "--3way", e.patchPath]]
  else if e.rejectOk then
    apAfterApply e [Event.git ["git", "apply", "--3way", e.patchPath],
      Event.git ["git", "apply", "--reject", e.patchPath]]
  else
    ([Event.git ["git", "apply", "--3way", e.patchPath],
      Event.git ["git", "apply", "--reject", e.patchPath]], 1)

/- ===== event classifiers ===== -/

def isCommitCmd : Event → Bool
  | Event.git args => args.take 2 == ["git", "commit"]
  | _ => false

def isPushCmd : Event → Bool
  | Event.git args => args.take 2 == ["git", "push"]
  | _ => false

def isResetHard : Event → Bool
  | Event.git args => args.take 3 == ["git", "reset", "--hard"]
  | _ => false

def isGitClean : Event → Bool
  | Event.git args => args.take 2 == ["git", "clean"]
  | _ => false

def isRejectApply : Event → Bool
  | Event.git args => args.take 3 == ["git", "apply", "--reject"]
  | _ => false

/- ===== parse_patch_files (apply_patch.py lines 47-51) =====
   re.findall(r"^\+\+\+ b/(.+)", text, flags=re.MULTILINE): at each line
   start, if the line begins with "+++ b/" and has at least one further
   character on the line, the rest of the line is a match; scanning
   resumes after the match, i.e. at the next line start. -/

/-- position of the next line start: drop up to and past the next
    newline. -/
def skipLine (cs : List Char) : List Char := (cs.dropWhile fun c => c != '\n').drop 1

/-- the regex scan itself, over the character sequence of the patch
    text, anchored at line starts. -/
def findHeaderPaths : List Char → List (List Char)
  | [] => []
  | c :: cs =>
    if "+++ b/".data.isPrefixOf (c :: cs) then
      if (((c :: cs).drop 6).takeWhile fun x => x != '\n').isEmpty then
        findHeaderPaths (skipLine (c :: cs))
      else
        (((c :: cs).drop 6).takeWhile fun x => x != '\n') :: findHeaderPaths (skipLine (c :: cs))
    else findHeaderPaths (skipLine (c :: cs))
termination_by cs => cs.length
decreasing_by
  all_goals
    simp only [skipLine, List.length_drop]
    have h : ((c :: cs).dropWhile fun x => x != '\n').length ≤ (c :: cs).length :=
      (List.dropWhile_sublist _).length_le
    simp only [List.length_cons] at h ⊢
    omega

/-- return a list of files modified by the patch (the findall result). -/
def parse_patch_files (text : String) : List String :=
  (findHeaderPaths text.data).map fun l => String.mk l

/-- the claim's reading: split the text into lines and keep, in order,
    the remainder of every line that begins with "+++ b/" (the captured
    group (.+), hence nonempty). -/
def splitLines : List Char → List (List Char)
  | [] => [[]]
  | c :: cs =>
    match splitLines cs with
    | [] => [[]]
    | l :: ls => if c = '\n' then [] :: l :: ls else (c :: l) :: ls

def headerExtract (l : List Char) : Option (List Char) :=
  if "+++ b/".data.isPrefixOf l && !(l.drop 6).isEmpty then some (l.drop 6) else none

def headerPathsSpec (cs : List Char) : List (List Char) :=
  (splitLines cs).filterMap headerExtract

/- ===== well-formed conflict files =====
   A line list that is a sequence of marker-free lines and complete
   conflict regions (start marker, marker-free ours block, separator,
   marker-free theirs block, end marker).  Used to state on which inputs
   the two resolver implementations coincide. -/

inductive WellFormedLines : List String → Prop
  | nil : WellFormedLines []
  | plain (l : String) (ls : List String) :
      noMarker l = true → WellFormedLines ls → WellFormedLines (l :: ls)
  | region (s m e : String) (O T rest : List String) :
      isStart s = true → isSep m = true → isEnd e = true →
      (∀ l ∈ O, noMarker l = true) → (∀ l ∈ T, noMarker l = true) →
      WellFormedLines rest →
      WellFormedLines (s :: (O ++ m :: (T ++ e :: rest)))

/- ========================= theorems ========================= -/

theorem noMarker_spec (l : String) (h : noMarker l = true) :
    isStart l = false ∧ isSep l = false ∧ isEnd l = false := by
  simp only [noMarker, Bool.and_eq_true, Bool.not_eq_true'] at h
  exact ⟨h.1.1, h.1.2, h.2⟩

theorem startsWithStr_head (c : Char) (p l : String)
    (hp : p.data.head? = some c) (h : startsWithStr p l = true) : l.data.head? = some c := by
  unfold startsWithStr at h
  obtain ⟨u, hu⟩ := List.isPrefixOf_iff_prefix.mp h
  cases hpd : p.data with
  | nil => rw [hpd] at hp; simp at hp
  | cons b bs =>
    rw [hpd] at hu hp
    rw [← hu]
    simpa using hp

theorem isStart_head (l : String) (h : isStart l = true) : l.data.head? = some '<' :=
  startsWithStr_head '<' _ l (by decide) h

theorem isSep_head (l : String) (h : isSep l = true) : l.data.head? = some '=' :=
  startsWithStr_head '=' _ l (by decide) h

theorem isEnd_head (l : String) (h : isEnd l = true) : l.data.head? = some '>' :=
  startsWithStr_head '>' _ l (by decide) h

theorem isStart_false_of_isSep (l : String) (h : isSep l = true) : isStart l = false := by
  by_contra hc
  rw [Bool.not_eq_false] at hc
  exact absurd ((isStart_head l hc).symm.trans (isSep_head l h)) (by decide)

theorem isStart_false_of_isEnd (l : String) (h : isEnd l = true) : isStart l = false := by
  by_contra hc
  rw [Bool.not_eq_false] at hc
  exact absurd ((isStart_head l hc).symm.trans (isEnd_head l h)) (by decide)

theorem isSep_false_of_isEnd (l : String) (h : isEnd l = true) : isSep l = false := by
  by_contra hc
  rw [Bool.not_eq_false] at hc
  exact absurd ((isSep_head l hc).symm.trans (isEnd_head l h)) (by decide)

/- ===== resolve_conflicts = its three-state machine ===== -/

theorem dropWhile_self (p : α → Bool) (l : List α) :
    (l.dropWhile p).dropWhile p = l.dropWhile p := by
  induction l with
  | nil => rfl
  | cons a l ih =>
    by_cases h : p a = true
    · simp [List.dropWhile_cons, h, ih]
    · simp [List.dropWhile_cons, h]

theorem go_skipOurs_spec (ls : List String) :
    resolveA_go AState.skipOurs ls =
      resolveA_go AState.takeTheirs ((ls.dropWhile fun x => !isSep x).drop 1) := by
  induction ls with
  | nil => rfl
  | cons l ls ih =>
    by_cases h : isSep l = true
    · simp [resolveA_go, h, List.dropWhile_cons]
    · simp [resolveA_go, h, List.dropWhile_cons, ih]

theorem go_takeTheirs_spec (ls : List String) :
    resolveA_go AState.takeTheirs ls =
      (ls.takeWhile fun x => !isEnd x) ++
        resolveA_go AState.normal ((ls.dropWhile fun x => !isEnd x).drop 1) := by
  induction ls with
  | nil => rfl
  | cons l ls ih =>
    by_cases h : isEnd l = true
    · simp [resolveA_go, h, List.takeWhile_cons, List.dropWhile_cons]
    · simp [resolveA_go, h, List.takeWhile_cons, List.dropWhile_cons, ih]

theorem resolve_conflicts_eq_go_aux :
    ∀ n, ∀ ls : List String, ls.length ≤ n →
      resolve_conflicts ls = resolveA_go AState.normal ls := by
  intro n
  induction n with
  | zero =>
    intro ls h
    have hnil : ls = [] := List.length_eq_zero.mp (Nat.le_zero.mp h)
    subst hnil
    simp [resolve_conflicts, resolveA_go]
  | succ n ih =>
    intro ls hlen
    match ls with
    | [] => simp [resolve_conflicts, resolveA_go]
    | l :: ls' =>
      have hlen' : ls'.length ≤ n := by
        simp only [List.length_cons] at hlen; omega
      by_cases h : isStart l = true
      · have hb : ((((ls'.dropWhile fun x => !isSep x).drop 1).dropWhile
            fun x => !isEnd x).drop 1).length ≤ n := by
          have h1 : ((ls'.dropWhile fun x => !isSep x)).length ≤ ls'.length :=
            (List.dropWhile_sublist _).length_le
          have h2 : (((ls'.dropWhile fun x => !isSep x).drop 1).dropWhile
              fun x => !isEnd x).length ≤ ((ls'.dropWhile fun x => !isSep x).drop 1).length :=
            (List.dropWhile_sublist _).length_le
          simp only [List.length_drop] at *
          omega
        simp only [resolve_conflicts]
        rw [if_pos h, dropWhile_self, ih _ hb]
        have hgo : resolveA_go AState.normal (l :: ls') = resolveA_go AState.skipOurs ls' := by
          simp [resolveA_go, h]
        rw [hgo, go_skipOurs_spec, go_takeTheirs_spec]
      · simp only [resolve_conflicts]
        rw [if_neg h, ih ls' hlen']
        simp [resolveA_go, h]

theorem resolve_conflicts_eq_go (ls : List String) :
    resolve_conflicts ls = resolveA_go AState.normal ls :=
  resolve_conflicts_eq_go_aux ls.length ls le_rfl

/- ===== behaviour of the resolve_conflicts machine on blocks ===== -/

theorem goA_normal_append (pre rest : List String) (h : ∀ l ∈ pre, isStart l = false) :
    resolveA_go AState.normal (pre ++ rest) = pre ++ resolveA_go AState.normal rest := by
  induction pre with
  | nil => rfl
  | cons l pre ih =>
    have hl : isStart l = false := h l (List.mem_cons_self l pre)
    simp only [List.cons_append, resolveA_go, hl]
    simp only [Bool.false_eq_true, if_false]
    exact congrArg (List.cons l) (ih fun x hx => h x (List.mem_cons_of_mem l hx))

theorem goA_normal_id (ls : List String) (h : ∀ l ∈ ls, isStart l = false) :
    resolveA_go AState.normal ls = ls := by
  have hz : resolveA_go AState.normal [] = ([] : List String) := rfl
  have := goA_normal_append ls [] h
  rw [hz, List.append_nil] at this
  exact this

theorem goA_skipOurs_append (O rest : List String) (h : ∀ l ∈ O, isSep l = false) :
    resolveA_go AState.skipOurs (O ++ rest) = resolveA_go AState.skipOurs rest := by
  induction O with
  | nil => rfl
  | cons l O ih =>
    have hl : isSep l = false := h l (List.mem_cons_self l O)
    simp only [List.cons_append, resolveA_go, hl]
    simp only [Bool.false_eq_true, if_false]
    exact ih fun x hx => h x (List.mem_cons_of_mem l hx)

theorem goA_skipOurs_nil (O : List String) (h : ∀ l ∈ O, isSep l = false) :
    resolveA_go AState.skipOurs O = [] := by
  have := goA_skipOurs_append O [] h
  simpa using this

theorem goA_takeTheirs_append (T rest : List String) (h : ∀ l ∈ T, isEnd l = false) :
    resolveA_go AState.takeTheirs (T ++ rest) = T ++ resolveA_go AState.takeTheirs rest := by
  induction T with
  | nil => rfl
  | cons l T ih =>
    have hl : isEnd l = false := h l (List.mem_cons_self l T)
    simp only [List.cons_append, resolveA_go, hl]
    simp only [Bool.false_eq_true, if_false]
    exact congrArg (List.cons l) (ih fun x hx => h x (List.mem_cons_of_mem l hx))

/-- one complete region, processed by the resolve_conflicts machine:
    keep the theirs block, drop everything else. -/
theorem goA_region (O T rest : List String) (s m e : String)
    (hs : isStart s = true) (hm : isSep m = true) (he : isEnd e = true)
    (hO : ∀ l ∈ O, isSep l = false) (hT : ∀ l ∈ T, isEnd l = false) :
    resolveA_go AState.normal (s :: (O ++ m :: (T ++ e :: rest))) =
      T ++ resolveA_go AState.normal rest := by
  have h1 : resolveA_go AState.normal (s :: (O ++ m :: (T ++ e :: rest))) =
      resolveA_go AState.skipOurs (O ++ m :: (T ++ e :: rest)) := by
    simp [resolveA_go, hs]
  rw [h1, goA_skipOurs_append O _ hO]
  have h2 : resolveA_go AState.skipOurs (m :: (T ++ e :: rest)) =
      resolveA_go AState.takeTheirs (T ++ e :: rest) := by
    simp [resolveA_go, hm]
  rw [h2, goA_takeTheirs_append T _ hT]
  have h3 : resolveA_go AState.takeTheirs (e :: rest) = resolveA_go AState.normal rest := by
    simp [resolveA_go, he]
  rw [h3]

/- ===== behaviour of the backup_and_resolve pass on blocks ===== -/

theorem br_go_false_irrel (ls : List String) (b b' : Bool) :
    br_go false b ls = br_go false b' ls := by
  induction ls generalizing b b' with
  | nil => rfl
  | cons l ls ih =>
    by_cases h : isStart l = true
    · simp [br_go, h]
    · simp only [br_go, h, Bool.and_false, Bool.false_eq_true, if_false, Bool.not_false,
        Bool.true_or, if_true]
      rw [ih b b']

theorem br_go_false_append (pre rest : List String) (b : Bool)
    (h : ∀ l ∈ pre, isStart l = false) :
    br_go false b (pre ++ rest) = pre ++ br_go false b rest := by
  induction pre with
  | nil => rfl
  | cons l pre ih =>
    have hl : isStart l = false := h l (List.mem_cons_self l pre)
    simp only [List.cons_append, br_go, hl, Bool.and_false, Bool.false_eq_true, if_false,
      Bool.not_false, Bool.true_or, if_true]
    exact congrArg (List.cons l) (ih fun x hx => h x (List.mem_cons_of_mem l hx))

theorem br_go_false_id (ls : List String) (b : Bool) (h : ∀ l ∈ ls, isStart l = false) :
    br_go false b ls = ls := by
  have hz : br_go false b [] = ([] : List String) := rfl
  have := br_go_false_append ls [] b h
  rw [hz, List.append_nil] at this
  exact this

theorem br_go_ours_append (O rest : List String) (h : ∀ l ∈ O, noMarker l = true) :
    br_go true false (O ++ rest) = br_go true false rest := by
  induction O with
  | nil => rfl
  | cons l O ih =>
    obtain ⟨h1, h2, h3⟩ := noMarker_spec l (h l (List.mem_cons_self l O))
    simp only [List.cons_append, br_go, h1, h2, h3, Bool.false_and, Bool.false_eq_true,
      if_false, Bool.not_true, Bool.or_false, Bool.false_or]
    exact ih fun x hx => h x (List.mem_cons_of_mem l hx)

theorem br_go_theirs_append (T rest : List String) (h : ∀ l ∈ T, noMarker l = true) :
    br_go true true (T ++ rest) = T ++ br_go true true rest := by
  induction T with
  | nil => rfl
  | cons l T ih =>
    obtain ⟨h1, h2, h3⟩ := noMarker_spec l (h l (List.mem_cons_self l T))
    simp only [List.cons_append, br_go, h1, h2, h3, Bool.false_and, Bool.false_eq_true,
      if_false, Bool.not_true, Bool.or_true, Bool.false_or, if_true]
    exact congrArg (List.cons l) (ih fun x hx => h x (List.mem_cons_of_mem l hx))

/-- one complete region, processed by the backup_and_resolve pass. -/
theorem br_region (O T rest : List String) (m e : String)
    (hm : isSep m = true) (he : isEnd e = true)
    (hO : ∀ l ∈ O, noMarker l = true) (hT : ∀ l ∈ T, noMarker l = true) :
    br_go true false (O ++ m :: (T ++ e :: rest)) = T ++ br_go false true rest := by
  rw [br_go_ours_append O _ hO]
  have h2 : br_go true false (m :: (T ++ e :: rest)) = br_go true true (T ++ e :: rest) := by
    simp [br_go, isStart_false_of_isSep m hm, hm]
  rw [h2, br_go_theirs_append T _ hT]
  have h3 : br_go true true (e :: rest) = br_go false true rest := by
    simp [br_go, isStart_false_of_isEnd e he, isSep_false_of_isEnd e he, he]
  rw [h3]

theorem br_go_no_start (c k : Bool) (ls : List String) :
    ∀ l ∈ br_go c k ls, isStart l = false := by
  induction ls generalizing c k with
  | nil => intro l hl; simp [br_go] at hl
  | cons x ls ih =>
    intro l hl
    by_cases h1 : isStart x = true
    · rw [br_go, if_pos h1] at hl
      exact ih true false l hl
    · rw [br_go, if_neg h1] at hl
      by_cases h2 : (isSep x && c) = true
      · rw [if_pos h2] at hl
        exact ih c true l hl
      · rw [if_neg h2] at hl
        by_cases h3 : (isEnd x && c) = true
        · rw [if_pos h3] at hl
          exact ih false k l hl
        · rw [if_neg h3] at hl
          by_cases h4 : (!c || k) = true
          · rw [if_pos h4] at hl
            rcases List.mem_cons.mp hl with rfl | hl'
            · simpa using h1
            · exact ih c k l hl'
          · rw [if_neg h4] at hl
            exact ih c k l hl

/- ===== the two resolvers coincide on well-formed input ===== -/

theorem goA_eq_br_of_wf (ls : List String) (h : WellFormedLines ls) :
    resolveA_go AState.normal ls = br_go false false ls := by
  induction h with
  | nil => rfl
  | plain l ls hl _ ih =>
    obtain ⟨h1, h2, h3⟩ := noMarker_spec l hl
    simp only [resolveA_go, br_go, h1, Bool.false_eq_true, if_false, Bool.and_false,
      Bool.not_false, Bool.true_or, if_true]
    exact congrArg (List.cons l) ih
  | region s m e O T rest hs hm he hO hT _ ih =>
    rw [goA_region O T rest s m e hs hm he
      (fun l hl => (noMarker_spec l (hO l hl)).2.1)
      (fun l hl => (noMarker_spec l (hT l hl)).2.2)]
    have hb : br_go false false (s :: (O ++ m :: (T ++ e :: rest))) =
        br_go true false (O ++ m :: (T ++ e :: rest)) := by
      simp [br_go, hs]
    rw [hb, br_region O T rest m e hm he hO hT, br_go_false_irrel rest true false, ih]

/- ===== trace lemmas for the fix-script pipeline ===== -/

theorem backup_events_not_git (d : Bool) (fs : List MFile) :
    ∀ ev ∈ (backup_and_resolve d fs).events,
      isCommitCmd ev = false ∧ isPushCmd ev = false ∧ isResetHard ev = false ∧
        isGitClean ev = false ∧ isRejectApply ev = false := by
  induction fs with
  | nil => intro ev hev; simp [backup_and_resolve] at hev
  | cons f fs ih =>
    intro ev hev
    simp only [backup_and_resolve] at hev
    by_cases h1 : f.onDisk = false
    · rw [if_pos h1] at hev
      exact ih ev hev
    · rw [if_neg h1] at hev
      by_cases h2 : f.raises = true
      · rw [if_pos h2] at hev
        exact ih ev hev
      · rw [if_neg h2] at hev
        simp only [List.mem_append] at hev
        rcases hev with hev | hev
        · by_cases hd : d = true
          · rw [if_pos hd] at hev
            simp at hev
          · rw [if_neg hd] at hev
            simp only [List.mem_cons, List.mem_singleton] at hev
            rcases hev with rfl | rfl | hev
            · exact ⟨rfl, rfl, rfl, rfl, rfl⟩
            · exact ⟨rfl, rfl, rfl, rfl, rfl⟩
            · simp at hev
        · exact ih ev hev

theorem backup_dry_events (fs : List MFile) :
    (backup_and_resolve true fs).events = [] := by
  induction fs with
  | nil => rfl
  | cons f fs ih =>
    simp only [backup_and_resolve]
    by_cases h1 : f.onDisk = false
    · rw [if_pos h1]; exact ih
    · rw [if_neg h1]
      by_cases h2 : f.raises = true
      · rw [if_pos h2]; exact ih
      · rw [if_neg h2]
        simp [ih]

theorem auto_commit_dry (p : Bool) (m : String) : auto_commit_and_push true p m = [] := by
  cases p <;> rfl

theorem auto_commit_not_fallback (d p : Bool) (m : String) :
    ∀ ev ∈ auto_commit_and_push d p m,
      isResetHard ev = false ∧ isGitClean ev = false ∧ isRejectApply ev = false := by
  cases d
  · cases p
    · intro ev hev
      simp only [auto_commit_and_push, runCmd, Bool.false_eq_true, if_false,
        List.append_nil, List.mem_append, List.mem_singleton] at hev
      rcases hev with (rfl | rfl) | rfl
      · exact ⟨rfl, rfl, rfl⟩
      · exact ⟨rfl, rfl, rfl⟩
      · exact ⟨rfl, rfl, rfl⟩
    · intro ev hev
      simp only [auto_commit_and_push, runCmd, Bool.false_eq_true, if_false, if_true,
        List.mem_append, List.mem_singleton] at hev
      rcases hev with ((rfl | rfl) | rfl) | rfl
      · exact ⟨rfl, rfl, rfl⟩
      · exact ⟨rfl, rfl, rfl⟩
      · exact ⟨rfl, rfl, rfl⟩
      · exact ⟨rfl, rfl, rfl⟩
  · intro ev hev
    rw [auto_commit_dry] at hev
    simp at hev

theorem auto_commit_push_iff (d p : Bool) (m : String) :
    (auto_commit_and_push d p m).any isPushCmd = (p && !d) := by
  cases d <;> cases p <;> rfl

theorem auto_commit_has_commit (p : Bool) (m : String) :
    (auto_commit_and_push false p m).any isCommitCmd = true := by
  cases p <;> rfl

/- ===== trace lemmas for the apply_patch.py pipeline ===== -/

theorem apResolveLoop_ok (fs : List MFile) : (apResolveLoop true fs).2 = none := by
  induction fs with
  | nil => rfl
  | cons f fs ih =>
    by_cases h : (f.onDisk && has_conflict_markers f) = true
    · simp [apResolveLoop, h, ih]
    · simp [apResolveLoop, h, ih]

theorem apResolveLoop_not_reject (a : Bool) (fs : List MFile) :
    ∀ ev ∈ (apResolveLoop a fs).1, isRejectApply ev = false := by
  induction fs with
  | nil => intro ev hev; simp [apResolveLoop] at hev
  | cons f fs ih =>
    intro ev hev
    simp only [apResolveLoop] at hev
    by_cases h : (f.onDisk && has_conflict_markers f) = true
    · rw [if_pos h] at hev
      by_cases ha : a = true
      · rw [if_pos ha] at hev
        simp only [List.mem_cons] at hev
        rcases hev with rfl | rfl | hev
        · rfl
        · rfl
        · exact ih ev hev
      · rw [if_neg ha] at hev
        simp only [List.mem_cons] at hev
        rcases hev with rfl | rfl | hev
        · rfl
        · rfl
        · simp at hev
    · rw [if_neg h] at hev
      exact ih ev hev

theorem commit_and_push_not_reject (a : Bool) (r : CmdResult) (p : Bool) :
    ∀ ev ∈ (commit_and_push a r p).1, isRejectApply ev = false := by
  intro ev hev
  unfold commit_and_push at hev
  by_cases h1 : a = false
  · rw [if_pos h1] at hev
    simp only [List.mem_cons] at hev
    rcases hev with rfl | hev
    · rfl
    · simp at hev
  · rw [if_neg h1] at hev
    by_cases h2 : nothingToCommit (runIgnore r) = true
    · rw [if_pos h2] at hev
      simp only [List.mem_cons] at hev
      rcases hev with rfl | rfl | hev
      · rfl
      · rfl
      · simp at hev
    · rw [if_neg h2] at hev
      by_cases h3 : p = true
      · rw [if_pos h3] at hev
        simp only [List.mem_cons] at hev
        rcases hev with rfl | rfl | rfl | hev
        · rfl
        · rfl
        · rfl
        · simp at hev
      · rw [if_neg h3] at hev
        simp only [List.mem_cons] at hev
        rcases hev with rfl | rfl | rfl | hev
        · rfl
        · rfl
        · rfl
        · simp at hev

/- ===== parse_patch_files: the regex scan equals the per-line reading ===== -/

theorem takeWhile_all {α : Type} (q : α → Bool) (l : List α) (h : ∀ a ∈ l, q a = true) :
    l.takeWhile q = l := by
  induction l with
  | nil => rfl
  | cons a l ih =>
    rw [List.takeWhile_cons, if_pos (h a (List.mem_cons_self a l))]
    exact congrArg (List.cons a) (ih fun x hx => h x (List.mem_cons_of_mem a hx))

theorem dropWhile_nil_mem {α : Type} (q : α → Bool) (l : List α) (h : l.dropWhile q = []) :
    ∀ a ∈ l, q a = true := by
  induction l with
  | nil => intro a ha; simp at ha
  | cons b l ih =>
    intro a ha
    rw [List.dropWhile_cons] at h
    by_cases hb : q b = true
    · rw [if_pos hb] at h
      rcases List.mem_cons.mp ha with rfl | ha'
      · exact hb
      · exact ih h a ha'
    · rw [if_neg hb] at h
      simp at h

theorem prefix_takeWhile_eq (p : List Char) (q : Char → Bool)
    (hp : ∀ a ∈ p, q a = true) (cs : List Char) :
    p.isPrefixOf (cs.takeWhile q) = p.isPrefixOf cs := by
  induction p generalizing cs with
  | nil => simp
  | cons a p ih =>
    cases cs with
    | nil => simp
    | cons c cs =>
      rw [List.takeWhile_cons]
      by_cases hc : q c = true
      · rw [if_pos hc, List.isPrefixOf_cons₂, List.isPrefixOf_cons₂,
          ih (fun x hx => hp x (List.mem_cons_of_mem a hx)) cs]
      · rw [if_neg hc, List.isPrefixOf_cons_nil, List.isPrefixOf_cons₂]
        have ha : q a = true := hp a (List.mem_cons_self a p)
        have hne : (a == c) = false := by
          by_contra hcc
          rw [Bool.not_eq_false] at hcc
          have hac : a = c := eq_of_beq hcc
          subst hac
          exact hc ha
        rw [hne, Bool.false_and]

theorem takeWhile_append_all {α : Type} (p t : List α) (q : α → Bool)
    (h : ∀ a ∈ p, q a = true) : (p ++ t).takeWhile q = p ++ t.takeWhile q := by
  induction p with
  | nil => rfl
  | cons a p ih =>
    rw [List.cons_append, List.takeWhile_cons, if_pos (h a (List.mem_cons_self a p))]
    exact congrArg (List.cons a) (ih fun x hx => h x (List.mem_cons_of_mem a hx))

theorem takeWhile_drop_of_prefix (p cs : List Char) (q : Char → Bool)
    (hpre : p.isPrefixOf cs = true) (hall : ∀ a ∈ p, q a = true) :
    (cs.takeWhile q).drop p.length = (cs.drop p.length).takeWhile q := by
  obtain ⟨t, ht⟩ := List.isPrefixOf_iff_prefix.mp hpre
  rw [← ht, takeWhile_append_all p t q hall, List.drop_left, List.drop_left]

theorem splitLines_ne_nil (cs : List Char) : splitLines cs ≠ [] := by
  induction cs with
  | nil => simp [splitLines]
  | cons c cs ih =>
    simp only [splitLines]
    cases h : splitLines cs with
    | nil => exact absurd h ih
    | cons l ls => by_cases hc : c = '\n' <;> simp [hc]

theorem splitLines_nonl (cs : List Char) (h : (cs.dropWhile fun c => c != '\n') = []) :
    splitLines cs = [cs] := by
  induction cs with
  | nil => rfl
  | cons c cs ih =>
    rw [List.dropWhile_cons] at h
    by_cases hc : (c != '\n') = true
    · rw [if_pos hc] at h
      have hc' : ¬ c = '\n' := by simpa using hc
      simp only [splitLines]
      rw [ih h]
      simp [hc']
    · rw [if_neg hc] at h
      simp at h

theorem splitLines_cons_nl (cs : List Char) (h : (cs.dropWhile fun c => c != '\n') ≠ []) :
    splitLines cs = (cs.takeWhile fun c => c != '\n') ::
      splitLines ((cs.dropWhile fun c => c != '\n').drop 1) := by
  induction cs with
  | nil => simp at h
  | cons c cs ih =>
    by_cases hc : (c != '\n') = true
    · have hc' : ¬ c = '\n' := by simpa using hc
      rw [List.dropWhile_cons, if_pos hc] at h
      simp only [splitLines]
      rw [ih h]
      rw [List.takeWhile_cons, if_pos hc, List.dropWhile_cons, if_pos hc]
      simp [hc']
    · have hc' : c = '\n' := by simpa using hc
      subst hc'
      rw [List.takeWhile_cons, List.dropWhile_cons]
      have hne : (('\n' != '\n') : Bool) = false := by decide
      rw [hne]
      simp only [Bool.false_eq_true, if_false, List.drop_one, List.tail_cons]
      simp only [splitLines]
      cases hs : splitLines cs with
      | nil => exact absurd hs (splitLines_ne_nil cs)
      | cons l ls => simp [hs]

theorem headerExtract_takeWhile (cs : List Char) :
    headerExtract (cs.takeWhile fun c => c != '\n') =
      (if "+++ b/".data.isPrefixOf cs &&
          !(((cs.drop 6).takeWhile fun c => c != '\n').isEmpty) then
        some ((cs.drop 6).takeWhile fun c => c != '\n')
      else none) := by
  unfold headerExtract
  have hall : ∀ a ∈ "+++ b/".data, (fun c => c != '\n') a = true := by decide
  rw [prefix_takeWhile_eq "+++ b/".data _ hall cs]
  by_cases hp : "+++ b/".data.isPrefixOf cs = true
  · rw [hp]
    have hd := takeWhile_drop_of_prefix "+++ b/".data cs _ hp hall
    have hlen : "+++ b/".data.length = 6 := by decide
    rw [hlen] at hd
    rw [hd]
  · have hp' : "+++ b/".data.isPrefixOf cs = false := by rwa [Bool.not_eq_true] at hp
    rw [hp']
    simp

theorem findHeaderPaths_eq_spec_aux :
    ∀ n, ∀ cs : List Char, cs.length ≤ n → findHeaderPaths cs = headerPathsSpec cs := by
  intro n
  induction n with
  | zero =>
    intro cs h
    have hnil : cs = [] := List.length_eq_zero.mp (Nat.le_zero.mp h)
    subst hnil
    simp only [findHeaderPaths]
    decide
  | succ n ih =>
    intro cs hlen
    match cs with
    | [] =>
      simp only [findHeaderPaths]
      decide
    | c :: cs' =>
      have hskiplen : (skipLine (c :: cs')).length ≤ n := by
        have hsub : ((c :: cs').dropWhile fun x => x != '\n').length ≤ (c :: cs').length :=
          (List.dropWhile_sublist _).length_le
        simp only [skipLine, List.length_drop, List.length_cons] at *
        omega
      have ihs := ih _ hskiplen
      have hFnil : findHeaderPaths [] = [] := by simp [findHeaderPaths]
      have hext := headerExtract_takeWhile (c :: cs')
      by_cases hnl : ((c :: cs').dropWhile fun x => x != '\n') = []
      · have hskipnil : skipLine (c :: cs') = [] := by
          simp [skipLine, hnl]
        have hline : ((c :: cs').takeWhile fun x => x != '\n') = c :: cs' :=
          takeWhile_all _ _ (dropWhile_nil_mem _ _ hnl)
        unfold headerPathsSpec
        rw [splitLines_nonl _ hnl]
        simp only [List.filterMap_cons, List.filterMap_nil]
        rw [hline] at hext
        rw [hext]
        simp only [findHeaderPaths]
        rw [hskipnil, hFnil]
        by_cases hp : ("+++ b/".data.isPrefixOf (c :: cs') &&
            !((((c :: cs').drop 6).takeWhile fun c => c != '\n').isEmpty)) = true
        · have hp' := hp
          rw [Bool.and_eq_true] at hp'
          have hp1 := hp'.1
          have hp2 : ((((c :: cs').drop 6).takeWhile fun c => c != '\n').isEmpty) = false := by
            have h2 := hp'.2
            rwa [Bool.not_eq_true'] at h2
          rw [if_pos hp, if_pos hp1, if_neg (by rw [hp2]; exact Bool.false_ne_true)]
        · rw [if_neg hp]
          by_cases hp1 : "+++ b/".data.isPrefixOf (c :: cs') = true
          · have hp2 : ((((c :: cs').drop 6).takeWhile fun c => c != '\n').isEmpty) = true := by
              by_contra hcc
              rw [Bool.not_eq_true] at hcc
              exact hp (by rw [Bool.and_eq_true]; exact ⟨hp1, by rw [hcc]; rfl⟩)
            rw [if_pos hp1, if_pos hp2]
          · rw [if_neg hp1]
      · unfold headerPathsSpec
        rw [splitLines_cons_nl _ hnl]
        simp only [List.filterMap_cons]
        rw [hext]
        have hskipeq : ((c :: cs').dropWhile fun c => c != '\n').drop 1 = skipLine (c :: cs') :=
          rfl
        rw [hskipeq]
        simp only [findHeaderPaths]
        rw [ihs]
        unfold headerPathsSpec
        by_cases hp : ("+++ b/".data.isPrefixOf (c :: cs') &&
            !((((c :: cs').drop 6).takeWhile fun c => c != '\n').isEmpty)) = true
        · have hp' := hp
          rw [Bool.and_eq_true] at hp'
          have hp1 := hp'.1
          have hp2 : ((((c :: cs').drop 6).takeWhile fun c => c != '\n').isEmpty) = false := by
            have h2 := hp'.2
            rwa [Bool.not_eq_true'] at h2
          rw [if_pos hp, if_pos hp1, if_neg (by rw [hp2]; exact Bool.false_ne_true)]
        · rw [if_neg hp]
          by_cases hp1 : "+++ b/".data.isPrefixOf (c :: cs') = true
          · have hp2 : ((((c :: cs').drop 6).takeWhile fun c => c != '\n').isEmpty) = true := by
              by_contra hcc
              rw [Bool.not_eq_true] at hcc
              exact hp (by rw [Bool.and_eq_true]; exact ⟨hp1, by rw [hcc]; rfl⟩)
            rw [if_pos hp1, if_pos hp2]
          · rw [if_neg hp1]

theorem findHeaderPaths_eq_spec (cs : List Char) : findHeaderPaths cs = headerPathsSpec cs :=
  findHeaderPaths_eq_spec_aux cs.length cs le_rfl

theorem bool_true_ne_false : (true : Bool) ≠ false := fun h => nomatch h

theorem bool_false_ne_true : (false : Bool) ≠ true := fun h => nomatch h

theorem any_eq_false_of_all {α : Type} {p : α → Bool} {l : List α}
    (h : ∀ x ∈ l, p x = false) : l.any p = false := by
  induction l with
  | nil => rfl
  | cons a l ih =>
    simp only [List.any_cons, h a (List.mem_cons_self a l), Bool.false_or]
    exact ih fun x hx => h x (List.mem_cons_of_mem a hx)

/- ========================= claims ========================= -/

/-- C1 (confirmed): a file with exactly one well-formed conflict region -
    marker-free lines, then a start marker, the ours block O, a
    separator, the theirs block T, an end marker, then marker-free
    lines - resolves under both resolver implementations to the
    surrounding lines with exactly T in place of the region; the three
    marker lines are removed and no conflict-marker line remains. -/
theorem c1_single_region (pre O T post : List String) (s m e : String)
    (hs : isStart s = true) (hm : isSep m = true) (he : isEnd e = true)
    (hpre : ∀ l ∈ pre, noMarker l = true) (hO : ∀ l ∈ O, noMarker l = true)
    (hT : ∀ l ∈ T, noMarker l = true) (hpost : ∀ l ∈ post, noMarker l = true) :
    resolve_conflicts (pre ++ s :: (O ++ m :: (T ++ e :: post))) = pre ++ (T ++ post) ∧
      backup_resolve_lines (pre ++ s :: (O ++ m :: (T ++ e :: post))) = pre ++ (T ++ post) ∧
      ∀ l ∈ pre ++ (T ++ post), noMarker l = true := by
  refine ⟨?_, ?_, ?_⟩
  · rw [resolve_conflicts_eq_go,
      goA_normal_append pre _ (fun l hl => (noMarker_spec l (hpre l hl)).1),
      goA_region O T post s m e hs hm he (fun l hl => (noMarker_spec l (hO l hl)).2.1)
        (fun l hl => (noMarker_spec l (hT l hl)).2.2),
      goA_normal_id post (fun l hl => (noMarker_spec l (hpost l hl)).1)]
  · unfold backup_resolve_lines
    rw [br_go_false_append pre _ false (fun l hl => (noMarker_spec l (hpre l hl)).1)]
    have hb : br_go false false (s :: (O ++ m :: (T ++ e :: post))) =
        br_go true false (O ++ m :: (T ++ e :: post)) := by
      simp [br_go, hs]
    rw [hb, br_region O T post m e hm he hO hT, br_go_false_irrel post true false,
      br_go_false_id post false (fun l hl => (noMarker_spec l (hpost l hl)).1)]
  · intro l hl
    rcases List.mem_append.mp hl with h | h
    · exact hpre l h
    · rcases List.mem_append.mp h with h | h
      · exact hT l h
      · exact hpost l h

/-- C1 witness: the spec's concrete scenario, under both resolvers. -/
theorem c1_single_region_witness :
    resolve_conflicts
        ["line1\n", "<<<<<<< ours\n", "A\n", "=======\n", "B\n", ">>>>>>> theirs\n",
          "line2\n"] =
      ["line1\n", "B\n", "line2\n"] ∧
    backup_resolve_lines
        ["line1\n", "<<<<<<< ours\n", "A\n", "=======\n", "B\n", ">>>>>>> theirs\n",
          "line2\n"] =
      ["line1\n", "B\n", "line2\n"] := by
  have h := c1_single_region ["line1\n"] ["A\n"] ["B\n"] ["line2\n"]
    "<<<<<<< ours\n" "=======\n" ">>>>>>> theirs\n"
    (by decide) (by decide) (by decide) (by decide) (by decide) (by decide) (by decide)
  exact ⟨h.1, h.2.1⟩

/-- C2 counterexample: a file whose start marker has no matching end
    marker is rewritten to different content by both resolvers, so it is
    not left byte-identical, and neither implementation has an
    unresolved result that suppresses the write (resolve_conflicts
    rewrites the file unconditionally; backup_and_resolve writes unless
    dry_run). -/
theorem c2_counterexample :
    resolve_conflicts ["line1\n", "<<<<<<< a\n", "body\n"] ≠
        ["line1\n", "<<<<<<< a\n", "body\n"] ∧
      backup_resolve_lines ["line1\n", "<<<<<<< a\n", "body\n"] ≠
        ["line1\n", "<<<<<<< a\n", "body\n"] := by
  constructor
  · rw [resolve_conflicts_eq_go]
    decide
  · decide

/-- C2 (corrected): on a start marker followed only by marker-free lines
    (no separator, no end marker), both resolvers rewrite the file to
    exactly the lines before the start marker: the marker and the whole
    unterminated region are deleted, no unresolved result is returned,
    and the mutated content is written. -/
theorem c2_amended (pre O : List String) (s : String) (hs : isStart s = true)
    (hpre : ∀ l ∈ pre, noMarker l = true) (hO : ∀ l ∈ O, noMarker l = true) :
    resolve_conflicts (pre ++ s :: O) = pre ∧
      backup_resolve_lines (pre ++ s :: O) = pre := by
  constructor
  · rw [resolve_conflicts_eq_go,
      goA_normal_append pre _ (fun l hl => (noMarker_spec l (hpre l hl)).1)]
    have h1 : resolveA_go AState.normal (s :: O) = resolveA_go AState.skipOurs O := by
      simp [resolveA_go, hs]
    rw [h1, goA_skipOurs_nil O (fun l hl => (noMarker_spec l (hO l hl)).2.1), List.append_nil]
  · unfold backup_resolve_lines
    rw [br_go_false_append pre _ false (fun l hl => (noMarker_spec l (hpre l hl)).1)]
    have h1 : br_go false false (s :: O) = br_go true false O := by
      simp [br_go, hs]
    have h2 : br_go true false O = [] := by
      have h3 := br_go_ours_append O [] hO
      simpa using h3
    rw [h1, h2, List.append_nil]

/-- C2 witness: a concrete malformed file. -/
theorem c2_amended_witness :
    resolve_conflicts ["keep\n", "<<<<<<< HEAD\n", "lost\n"] = ["keep\n"] ∧
      backup_resolve_lines ["keep\n", "<<<<<<< HEAD\n", "lost\n"] = ["keep\n"] :=
  c2_amended ["keep\n"] ["lost\n"] "<<<<<<< HEAD\n" (by decide) (by decide) (by decide)

/-- C5 counterexample: resolving twice is not always the same as
    resolving once - a theirs block of resolve_conflicts may itself
    contain a start-marker line, which survives the first pass and is
    consumed by the second. -/
theorem c5_counterexample :
    resolve_conflicts (resolve_conflicts
        ["<<<<<<< a\n", "=======\n", "<<<<<<< b\n", ">>>>>>> c\n"]) ≠
      resolve_conflicts ["<<<<<<< a\n", "=======\n", "<<<<<<< b\n", ">>>>>>> c\n"] := by
  simp only [resolve_conflicts_eq_go]
  decide

/-- C5 (corrected): resolving a marker-free file is a no-op for both
    resolvers, and the backup_and_resolve pass is idempotent on every
    input; but double resolution can differ from single resolution for
    resolve_conflicts, so idempotence on arbitrary files holds only for
    the fix-script resolver. -/
theorem c5_amended (ls ys : List String) (h : ∀ l ∈ ls, noMarker l = true) :
    resolve_conflicts ls = ls ∧ backup_resolve_lines ls = ls ∧
      backup_resolve_lines (backup_resolve_lines ys) = backup_resolve_lines ys := by
  refine ⟨?_, ?_, ?_⟩
  · rw [resolve_conflicts_eq_go]
    exact goA_normal_id ls fun l hl => (noMarker_spec l (h l hl)).1
  · exact br_go_false_id ls false fun l hl => (noMarker_spec l (h l hl)).1
  · exact br_go_false_id _ false (br_go_no_start false false ys)

/-- C5 witness: a marker-free file and an idempotence instance. -/
theorem c5_amended_witness :
    resolve_conflicts ["plain\n"] = ["plain\n"] ∧
      backup_resolve_lines ["plain\n"] = ["plain\n"] ∧
      backup_resolve_lines (backup_resolve_lines
          ["<<<<<<< x\n", "=======\n", "q\n", ">>>>>>> y\n"]) =
        backup_resolve_lines ["<<<<<<< x\n", "=======\n", "q\n", ">>>>>>> y\n"] :=
  c5_amended ["plain\n"] ["<<<<<<< x\n", "=======\n", "q\n", ">>>>>>> y\n"] (by decide)

/-- C10 counterexample: on a conflict with a missing separator the two
    resolver implementations disagree: resolve_conflicts scans past the
    end marker looking for a separator and deletes the rest of the file,
    while backup_and_resolve leaves the conflict at the end marker and
    keeps the following lines. -/
theorem c10_counterexample :
    resolve_conflicts ["<<<<<<< a\n", "x\n", ">>>>>>> b\n", "z\n"] ≠
      backup_resolve_lines ["<<<<<<< a\n", "x\n", ">>>>>>> b\n", "z\n"] := by
  rw [resolve_conflicts_eq_go]
  decide

/-- C10 (corrected): the two resolver passes agree on every well-formed
    file (marker-free lines and complete start/separator/end regions),
    though not on arbitrary input. -/
theorem c10_amended (ls : List String) (h : WellFormedLines ls) :
    resolve_conflicts ls = backup_resolve_lines ls := by
  rw [resolve_conflicts_eq_go]
  exact goA_eq_br_of_wf ls h

/-- C9 (confirmed): parse_patch_files returns exactly, in order of
    appearance, the remainder of every line of the patch text that
    begins with "+++ b/" and has a nonempty captured path (the regex
    group (.+)): the character-level regex scan equals the per-line
    reading of the claim. -/
theorem c9_parse_patch_files (text : String) :
    parse_patch_files text =
      ((splitLines text.data).filterMap headerExtract).map fun l => String.mk l := by
  unfold parse_patch_files
  rw [findHeaderPaths_eq_spec]
  rfl

/-- C3 counterexample: in a run whose only scanned conflicted file is a
    reject file, backup_and_resolve counts it as resolved (rewriting it
    is a no-op), the file still satisfies the scanner's conflicted test
    afterwards, and the pipeline nevertheless runs git commit. -/
theorem c3_counterexample :
    ((backup_and_resolve false
          (has_conflicts [⟨"fix.rej", ["junk\n"], true, false⟩])).files.any
        fileConflicted) = true ∧
      (fixMainEvents ⟨true, true, false, true, true, false, false, false, "code.patch",
          [⟨"fix.rej", ["junk\n"], true, false⟩]⟩).any isCommitCmd = true :=
  ⟨by decide, by decide⟩

/-- C3 (corrected): the commit step is skipped only when no scanned file
    at all was resolved; whenever the resolver reports at least one file
    resolved the commit runs, even if other scanned files remain
    conflicted.  Proved here: with conflicts present and an empty
    resolved list, no git commit is issued. -/
theorem c3_amended (e : FixEnv)
    (hc : (has_conflicts e.repo).isEmpty = false)
    (hr : (backup_and_resolve e.dryRun (has_conflicts e.repo)).resolvedNames.isEmpty = true) :
    (fixMainEvents e).any isCommitCmd = false := by
  unfold fixMainEvents
  by_cases h1 : e.patchIsFile = false
  · rw [if_pos h1]; rfl
  · rw [if_neg h1]
    by_cases h2 : e.gitExists = false
    · rw [if_pos h2]; rfl
    · rw [if_neg h2]
      have hcn : ¬((has_conflicts e.repo).isEmpty = true) := by
        rw [hc]; exact bool_false_ne_true
      rw [if_neg hcn, if_pos hr]
      simp only [List.any_append, Bool.or_eq_false_iff]
      refine ⟨⟨⟨?_, ?_⟩, ?_⟩, ?_⟩
      · unfold fixApplyPatch runCmd
        by_cases hd : e.dryRun = true
        · rw [if_pos hd]; rfl
        · rw [if_neg hd]; rfl
      · by_cases hap : (fixApplyPatch e).2 = true
        · rw [if_pos hap]; rfl
        · rw [if_neg hap]
          unfold fallback_attempt runCmd
          by_cases hd : e.dryRun = true
          · rw [hd]; rfl
          · have hd2 : e.dryRun = false := by rwa [Bool.not_eq_true] at hd
            rw [hd2]; rfl
      · exact ⟨any_eq_false_of_all fun ev hev =>
          (backup_events_not_git e.dryRun (has_conflicts e.repo) ev hev).1, rfl⟩
      · rfl

/-- C3 witness: one conflicted file whose resolution raises, so nothing
    is resolved and the commit is skipped. -/
theorem c3_amended_witness :
    (fixMainEvents ⟨true, true, false, true, true, false, false, false, "code.patch",
        [⟨"w.txt", ["<<<<<<< a\n"], true, true⟩]⟩).any isCommitCmd = false :=
  c3_amended ⟨true, true, false, true, true, false, false, false, "code.patch",
    [⟨"w.txt", ["<<<<<<< a\n"], true, true⟩]⟩ (by decide) (by decide)

/-- C4 counterexample: a failed commit (exit 1, no nothing-to-commit
    signature in its stdout) is not fatal in apply_patch.py - the push
    is still invoked afterwards, contradicting the claim that any other
    non-zero commit outcome is fatal with no push. -/
theorem c4_counterexample :
    (⟨1, "error: commit failed"⟩ : CmdResult).exitCode ≠ 0 ∧
      nothingToCommit (runIgnore ⟨1, "error: commit failed"⟩) = false ∧
      (commit_and_push true ⟨1, "error: commit failed"⟩ true).1.any isPushCmd = true :=
  ⟨by decide, by decide, by decide⟩

/-- C4 (corrected): in apply_patch.py the nothing-to-commit signature in
    the commit stdout yields a successful no-op (exit 0) with no push
    attempted; every other commit outcome - the exit status is discarded
    entirely - is followed by a push attempt.  In the fix script the
    commit result is never inspected and push is attempted iff the push
    flag is set (and not dry-run). -/
theorem c4_amended (r : CmdResult) (pushOk dry push : Bool) (msg : String) :
    (nothingToCommit r.stdout = true →
        (commit_and_push true r pushOk).1.any isPushCmd = false ∧
          (commit_and_push true r pushOk).2 = 0) ∧
      (nothingToCommit r.stdout = false →
        (commit_and_push true r pushOk).1.any isPushCmd = true) ∧
      (auto_commit_and_push dry push msg).any isPushCmd = (push && !dry) := by
  refine ⟨?_, ?_, auto_commit_push_iff dry push msg⟩
  · intro hyes
    unfold commit_and_push runIgnore
    rw [if_neg (by simp), if_pos hyes]
    exact ⟨rfl, rfl⟩
  · intro hno
    unfold commit_and_push runIgnore
    rw [if_neg (by simp), if_neg (by rw [hno]; exact bool_false_ne_true)]
    by_cases hp : pushOk = true
    · rw [if_pos hp]; rfl
    · rw [if_neg hp]; rfl

/-- C4 witness: both classifications at concrete command outputs, and
    the fix script pushing on flag alone. -/
theorem c4_amended_witness :
    (commit_and_push true ⟨1, "On branch main\nnothing to commit, working tree clean"⟩
        true).1.any isPushCmd = false ∧
      (commit_and_push true ⟨0, "1 file changed"⟩ true).1.any isPushCmd = true ∧
      (auto_commit_and_push false true "m").any isPushCmd = (true && !false) := by
  refine ⟨?_, ?_, ?_⟩
  · exact ((c4_amended ⟨1, "On branch main\nnothing to commit, working tree clean"⟩ true
      false true "m").1 (by decide)).1
  · exact (c4_amended ⟨0, "1 file changed"⟩ true false true "m").2.1 (by decide)
  · exact (c4_amended ⟨0, ""⟩ true false true "m").2.2

/-- C6 (confirmed): when the three-way apply succeeds, the fix script
    never issues git reset --hard or git clean (the reset-and-retry
    fallback is not invoked), and apply_patch.py never issues
    git apply --reject. -/
theorem c6_clean_three_way_skips_fallbacks (e : FixEnv) (a : ApEnv)
    (hf : e.applyOk = true) (ha : a.threeWayOk = true) :
    (fixMainEvents e).any isResetHard = false ∧
      (fixMainEvents e).any isGitClean = false ∧
      (apMain a).1.any isRejectApply = false := by
  have hap2 : (fixApplyPatch e).2 = true := by
    unfold fixApplyPatch runCmd
    by_cases hd : e.dryRun = true
    · rw [if_pos hd]
    · rw [if_neg hd]; exact hf
  have hfix : ∀ q : Event → Bool,
      q (Event.git ["git", "apply", "--3way", e.patchPath]) = false →
      (∀ d p m, ∀ ev ∈ auto_commit_and_push d p m, q ev = false) →
      (∀ ev ∈ (backup_and_resolve e.dryRun (has_conflicts e.repo)).events, q ev = false) →
      q Event.logWrite = false →
      (fixMainEvents e).any q = false := by
    intro q hq1 hq2 hq3 hq4
    unfold fixMainEvents
    by_cases h1 : e.patchIsFile = false
    · rw [if_pos h1]; rfl
    · rw [if_neg h1]
      by_cases h2 : e.gitExists = false
      · rw [if_pos h2]; rfl
      · rw [if_neg h2]
        rw [if_pos hap2]
        simp only [List.any_append, Bool.or_eq_false_iff]
        refine ⟨⟨⟨?_, rfl⟩, ?_⟩, ?_⟩
        · unfold fixApplyPatch runCmd
          by_cases hd : e.dryRun = true
          · rw [if_pos hd]; rfl
          · rw [if_neg hd]
            simp only [List.any_cons, List.any_nil, Bool.or_false]
            exact hq1
        · by_cases hce : (has_conflicts e.repo).isEmpty = true
          · rw [if_pos hce, if_pos hap2]
            simp only [if_true]
            exact any_eq_false_of_all fun ev hev => hq2 _ _ _ ev hev
          · rw [if_neg hce]
            rw [List.any_append, Bool.or_eq_false_iff]
            refine ⟨any_eq_false_of_all hq3, ?_⟩
            by_cases hre : (backup_and_resolve e.dryRun
                (has_conflicts e.repo)).resolvedNames.isEmpty = true
            · rw [if_pos hre]; rfl
            · rw [if_neg hre]
              exact any_eq_false_of_all fun ev hev => hq2 _ _ _ ev hev
        · simp only [List.any_cons, List.any_nil, Bool.or_false]
          exact hq4
  refine ⟨?_, ?_, ?_⟩
  · exact hfix isResetHard rfl
      (fun d p m ev hev => (auto_commit_not_fallback d p m ev hev).1)
      (fun ev hev => (backup_events_not_git e.dryRun (has_conflicts e.repo) ev hev).2.2.1)
      rfl
  · exact hfix isGitClean rfl
      (fun d p m ev hev => (auto_commit_not_fallback d p m ev hev).2.1)
      (fun ev hev => (backup_events_not_git e.dryRun (has_conflicts e.repo) ev hev).2.2.2.1)
      rfl
  · unfold apMain
    by_cases h1 : a.patchIsFile = false
    · rw [if_pos h1]; rfl
    · rw [if_neg h1]
      by_cases h2 : a.repoIsDir = false
      · rw [if_pos h2]; rfl
      · rw [if_neg h2]
        by_cases h3 : a.gitDirIsDir = false
        · rw [if_pos h3]; rfl
        · rw [if_neg h3]
          rw [if_pos ha]
          unfold apAfterApply
          have hloopr := apResolveLoop_not_reject a.addOk a.touched
          have hcomr := commit_and_push_not_reject a.addOk a.commitRes a.pushOk
          rcases hloop : apResolveLoop a.addOk a.touched with ⟨levs, copt⟩
          rw [hloop] at hloopr
          cases copt with
          | some c =>
            simp only [List.any_append, Bool.or_eq_false_iff]
            exact ⟨rfl, any_eq_false_of_all hloopr⟩
          | none =>
            simp only [List.any_append, Bool.or_eq_false_iff]
            exact ⟨⟨rfl, any_eq_false_of_all hloopr⟩, any_eq_false_of_all hcomr⟩

/-- C6 witness: a clean three-way apply in both scripts. -/
theorem c6_clean_three_way_skips_fallbacks_witness :
    ((fixMainEvents ⟨true, true, true, true, true, true, false, false, "code.patch",
        []⟩).any isResetHard = false) ∧
      ((apMain ⟨true, true, true, true, true, true, [], ⟨0, "done"⟩, true,
          "code.patch"⟩).1.any isRejectApply = false) := by
  have h := c6_clean_three_way_skips_fallbacks
    ⟨true, true, true, true, true, true, false, false, "code.patch", []⟩
    ⟨true, true, true, true, true, true, [], ⟨0, "done"⟩, true, "code.patch"⟩ rfl rfl
  exact ⟨h.1, h.2.2⟩

/-- C7 counterexample: a dry run still performs a file write - main ends
    by writing the log file patch_apply.log regardless of the dry-run
    flag, so file content on disk differs after the run. -/
theorem c7_counterexample :
    (⟨true, true, true, true, true, true, false, true, "code.patch", []⟩ :
        FixEnv).dryRun = true ∧
      Event.logWrite ∈ fixMainEvents ⟨true, true, true, true, true, true, false, true,
        "code.patch", []⟩ :=
  ⟨rfl, by decide⟩

/-- C7 (corrected): under the dry-run flag the pipeline performs no git
    command, no backup copy and no repository file write - the only
    event of any run that passes validation is the final log-file write,
    which happens in dry runs too. -/
theorem c7_amended (e : FixEnv) (h : e.dryRun = true) :
    ∀ ev ∈ fixMainEvents e, ev = Event.logWrite := by
  intro ev hev
  unfold fixMainEvents fixApplyPatch fallback_attempt runCmd at hev
  rw [h] at hev
  simp only [if_true, ite_self, List.nil_append, List.append_nil, auto_commit_dry,
    backup_dry_events] at hev
  by_cases h1 : e.patchIsFile = false
  · rw [if_pos h1] at hev; simp at hev
  · rw [if_neg h1] at hev
    by_cases h2 : e.gitExists = false
    · rw [if_pos h2] at hev; simp at hev
    · rw [if_neg h2] at hev
      simpa using hev

/-- C7 witness: in a concrete dry run every event is the log write. -/
theorem c7_amended_witness :
    (fixMainEvents ⟨true, true, false, true, true, false, true, true, "code.patch",
        [⟨"c.txt", ["<<<<<<< a\n", "=======\n", "b\n", ">>>>>>> c\n"], true, false⟩]⟩).all
      (fun ev => ev == Event.logWrite) = true := by
  rw [List.all_eq_true]
  intro ev hev
  have h := c7_amended ⟨true, true, false, true, true, false, true, true, "code.patch",
    [⟨"c.txt", ["<<<<<<< a\n", "=======\n", "b\n", ">>>>>>> c\n"], true, false⟩]⟩ rfl ev hev
  rw [h]
  rfl

/-- C8 counterexample: the fix script exits 0 even on validation
    failure - a missing patch file makes main return early after logging,
    and sys.exit is never called, so the process exit status is 0 where
    the claim requires non-zero. -/
theorem c8_counterexample :
    (⟨false, true, true, true, true, true, false, false, "code.patch", []⟩ :
        FixEnv).patchIsFile = false ∧
      (fixMain ⟨false, true, true, true, true, true, false, false, "code.patch", []⟩).2 = 0 :=
  ⟨rfl, rfl⟩

/-- C8 (corrected): apply_patch.py behaves as claimed - exit 1 on any
    validation failure, exit 1 when both apply strategies fail, exit 0 on
    a successful run and on a nothing-to-commit no-op - but
    apply_patch_and_push_fix.py exits 0 on every input, including
    validation failures and unresolved conflicts. -/
theorem c8_amended (e1 e2 e3 : ApEnv) (f : FixEnv)
    (h1 : e1.patchIsFile = false ∨ e1.repoIsDir = false ∨ e1.gitDirIsDir = false)
    (h2a : e2.patchIsFile = true) (h2b : e2.repoIsDir = true) (h2c : e2.gitDirIsDir = true)
    (h2d : e2.threeWayOk = false) (h2e : e2.rejectOk = false)
    (h3a : e3.patchIsFile = true) (h3b : e3.repoIsDir = true) (h3c : e3.gitDirIsDir = true)
    (h3d : e3.threeWayOk = true) (h3e : e3.addOk = true) (h3f : e3.pushOk = true) :
    (apMain e1).2 = 1 ∧ (apMain e2).2 = 1 ∧ (apMain e3).2 = 0 ∧ (fixMain f).2 = 0 := by
  refine ⟨?_, ?_, ?_, rfl⟩
  · unfold apMain
    rcases h1 with h | h | h
    · rw [if_pos h]
    · by_cases hp : e1.patchIsFile = false
      · rw [if_pos hp]
      · rw [if_neg hp, if_pos h]
    · by_cases hp : e1.patchIsFile = false
      · rw [if_pos hp]
      · rw [if_neg hp]
        by_cases hr : e1.repoIsDir = false
        · rw [if_pos hr]
        · rw [if_neg hr, if_pos h]
  · unfold apMain
    rw [if_neg (by rw [h2a]; exact bool_true_ne_false),
      if_neg (by rw [h2b]; exact bool_true_ne_false),
      if_neg (by rw [h2c]; exact bool_true_ne_false),
      if_neg (by rw [h2d]; exact bool_false_ne_true),
      if_neg (by rw [h2e]; exact bool_false_ne_true)]
  · unfold apMain
    rw [if_neg (by rw [h3a]; exact bool_true_ne_false),
      if_neg (by rw [h3b]; exact bool_true_ne_false),
      if_neg (by rw [h3c]; exact bool_true_ne_false),
      if_pos h3d]
    unfold apAfterApply
    have hlo := apResolveLoop_ok e3.touched
    rcases hloop : apResolveLoop e3.addOk e3.touched with ⟨levs, copt⟩
    rw [h3e] at hloop
    rw [hloop] at hlo
    have hnone : copt = none := hlo
    subst hnone
    show (commit_and_push e3.addOk e3.commitRes e3.pushOk).2 = 0
    unfold commit_and_push
    rw [if_neg (by rw [h3e]; exact bool_true_ne_false)]
    by_cases hn : nothingToCommit (runIgnore e3.commitRes) = true
    · rw [if_pos hn]
    · rw [if_neg hn, if_pos h3f]

/-- C8 witness: concrete environments for each exit-code case. -/
theorem c8_amended_witness :
    (apMain ⟨false, true, true, true, true, true, [], ⟨0, ""⟩, true, "p"⟩).2 = 1 ∧
      (apMain ⟨true, true, true, false, false, true, [], ⟨0, ""⟩, true, "p"⟩).2 = 1 ∧
      (apMain ⟨true, true, true, true, true, true, [], ⟨0, "done"⟩, true, "p"⟩).2 = 0 ∧
      (fixMain ⟨true, true, true, true, true, true, false, false, "p", []⟩).2 = 0 :=
  c8_amended ⟨false, true, true, true, true, true, [], ⟨0, ""⟩, true, "p"⟩
    ⟨true, true, true, false, false, true, [], ⟨0, ""⟩, true, "p"⟩
    ⟨true, true, true, true, true, true, [], ⟨0, "done"⟩, true, "p"⟩
    ⟨true, true, true, true, true, true, false, false, "p", []⟩
    (Or.inl rfl) rfl rfl rfl rfl rfl rfl rfl rfl rfl rfl rfl

/-- C10 witness: a concrete well-formed file. -/
theorem c10_amended_witness :
    resolve_conflicts
        ["intro\n", "<<<<<<< mine\n", "old\n", "=======\n", "new\n", ">>>>>>> patch\n",
          "outro\n"] =
      backup_resolve_lines
        ["intro\n", "<<<<<<< mine\n", "old\n", "=======\n", "new\n", ">>>>>>> patch\n",
          "outro\n"] := by
  have h0 : WellFormedLines ["outro\n"] :=
    WellFormedLines.plain _ _ (by decide) WellFormedLines.nil
  have h1 := WellFormedLines.region "<<<<<<< mine\n" "=======\n" ">>>>>>> patch\n"
    ["old\n"] ["new\n"] ["outro\n"] (by decide) (by decide) (by decide) (by decide)
    (by decide) h0
  exact c10_amended _ (WellFormedLines.plain _ _ (by decide) h1)

end PatchSpec
